import Mathlib

/-!
Verification development for the global-scroll-service repository.

The definitions below are a shallow embedding of the real-time aggregation
core: the unit converter and anti-cheat constants (src/config/game.constants.ts),
the Redis-backed regional state store (src/services/redis.service.ts), the
scroll-batch validator (src/services/game.service.ts), the gravity (decay)
worker (src/workers/gravity.worker.ts), the global-height (rollup) worker
(src/workers/global-height.worker.ts), the persistence worker
(src/workers/persistence.worker.ts) and the raw-to-daily aggregation job
(src/workers/aggregation logic).

Modelling conventions: JavaScript numbers are modelled as rationals, BigInt
and integer Redis values as integers, and the Redis keyspace as association
lists from country code to integer value.  Redis stores decimal strings; the
string round trip through parseInt and toString is the identity on canonical
integer representations, so keys carry their integer values directly and the
published global height keeps its string form.
-/

set_option autoImplicit false

namespace GlobalScroll

/-! ## Unit converter and game constants (src/config/game.constants.ts) -/

/-- JavaScript Math.round: round half toward positive infinity. -/
def jsRound (x : ℚ) : ℤ := ⌊x + 1/2⌋

/-- CSS Reference Pixel standard: 96 pixels per inch. -/
def CSS_PIXELS_PER_INCH : ℚ := 96

/-- Millimeters per inch. -/
def MM_PER_INCH : ℚ := 254/10

/-- MM_PER_PIXEL = MM_PER_INCH / CSS_PIXELS_PER_INCH, about 0.264583333. -/
def MM_PER_PIXEL : ℚ := MM_PER_INCH / CSS_PIXELS_PER_INCH

/-- pixelsToMillimeters(pixels) = Math.round(pixels * MM_PER_PIXEL). -/
def pixelsToMillimeters (pixels : ℚ) : ℤ := jsRound (pixels * MM_PER_PIXEL)

/-- Maximum pixels allowed per batch (client-side validation limit). -/
def MAX_PIXELS_PER_BATCH : ℚ := 10000

/-- Maximum millimeters allowed per batch, converted from the pixel limit. -/
def MAX_MM_PER_BATCH : ℤ := pixelsToMillimeters MAX_PIXELS_PER_BATCH

/-- Environment default for MAX_VELOCITY_MULTIPLIER (src/config/env.ts, default 1.0). -/
def MAX_VELOCITY_MULTIPLIER : ℚ := 1

/-- Base maximum allowed velocity in millimeters per second. -/
def BASE_MAX_VELOCITY_MM_PER_SECOND : ℚ := 2000

/-- Configured velocity ceiling: base times multiplier. -/
def MAX_VELOCITY_MM_PER_SECOND : ℚ :=
  BASE_MAX_VELOCITY_MM_PER_SECOND * MAX_VELOCITY_MULTIPLIER

/-- Environment default for GRAVITY_STRENGTH_MULTIPLIER (src/config/env.ts, default 1.0). -/
def GRAVITY_STRENGTH_MULTIPLIER : ℚ := 1

/-- Base gravity decay rate in millimeters per tick. -/
def BASE_GRAVITY_DECAY_MM_PER_TICK : ℚ := 26

/-- GRAVITY_DECAY_MM_PER_TICK = Math.round(base * multiplier). -/
def GRAVITY_DECAY_MM_PER_TICK : ℤ :=
  jsRound (BASE_GRAVITY_DECAY_MM_PER_TICK * GRAVITY_STRENGTH_MULTIPLIER)

/-- Idle time threshold before gravity applies, in milliseconds. -/
def COUNTRY_IDLE_THRESHOLD_MS : ℤ := 5000

/-- Time window for velocity calculation in seconds (matches the 1000 ms rollup interval). -/
def VELOCITY_WINDOW_SECONDS : ℚ := 1

/-! ## Redis keyspace model (src/services/redis.service.ts)

Country heights live under keys global:height:CODE and per-country last
activity under global:last_activity:CODE; both key families are modelled as
association lists keyed by country code.  The key global:height holds the
published global total as a decimal string, and global:last_activity the
global last-activity timestamp. -/

/-- First-match association-list lookup, the model of a Redis GET. -/
def lookup : List (String × ℤ) → String → Option ℤ
  | [], _ => none
  | p :: l, k => if p.1 = k then some p.2 else lookup l k

/-- Redis SET on an integer-valued key: overwrite the value if the key is
present, otherwise append a fresh key. -/
def setValue (l : List (String × ℤ)) (k : String) (v : ℤ) : List (String × ℤ) :=
  match lookup l k with
  | some _ => l.map (fun p => if p.1 = k then (p.1, v) else p)
  | none => l ++ [(k, v)]

/-- Redis INCRBY: a missing key is treated as 0, the key is set to the old
value plus the increment, and the new value is returned. -/
def incrBy (l : List (String × ℤ)) (k : String) (n : ℤ) : ℤ × List (String × ℤ) :=
  let newVal := (lookup l k).getD 0 + n
  (newVal, setValue l k newVal)

/-- State of the Redis keyspace used by the service. -/
structure RedisState where
  heights : List (String × ℤ)
  lastActivities : List (String × ℤ)
  globalLastActivity : Option ℤ
  globalHeight : String
  deriving DecidableEq, Repr

/-- RedisService.incrementCountryHeight: INCRBY on the country height key. -/
def incrementCountryHeight (s : RedisState) (countryCode : String) (amount : ℤ) :
    ℤ × RedisState :=
  let r := incrBy s.heights countryCode amount
  (r.1, { s with heights := r.2 })

/-- RedisService.decreaseCountryHeight: read the current height (0 when the
key is missing), return 0 unchanged when it is not positive, otherwise
DECRBY by min(amount, currentValue) and return the new value. -/
def decreaseCountryHeight (s : RedisState) (countryCode : String) (amount : ℤ) :
    ℤ × RedisState :=
  let currentValue := (lookup s.heights countryCode).getD 0
  if currentValue ≤ 0 then (0, s)
  else
    let decreaseAmount := min amount currentValue
    let r := incrBy s.heights countryCode (-decreaseAmount)
    (r.1, { s with heights := r.2 })

/-- RedisService.getAllCountryHeights: scan all country height keys, keep
only countries whose height is strictly positive, and sort the result
descending by height. -/
def getAllCountryHeights (s : RedisState) : List (String × ℤ) :=
  List.insertionSort (fun a b => b.2 ≤ a.2)
    (s.heights.filter (fun p => decide (0 < p.2)))

/-- RedisService.getAllCountryLastActivities: scan all per-country
last-activity keys and return them all. -/
def getAllCountryLastActivities (s : RedisState) : List (String × ℤ) :=
  s.lastActivities

/-- RedisService.calculateGlobalHeightFromCountries: fold the heights
returned by getAllCountryHeights into a BigInt total. -/
def calculateGlobalHeightFromCountries (s : RedisState) : ℤ :=
  (getAllCountryHeights s).foldl (fun total p => total + p.2) 0

/-- RedisService.setGlobalHeight: SET the global height key. -/
def setGlobalHeight (s : RedisState) (value : String) : RedisState :=
  { s with globalHeight := value }

/-- RedisService.updateLastActivity: SET the global last-activity key to now. -/
def updateLastActivity (s : RedisState) (now : ℤ) : RedisState :=
  { s with globalLastActivity := some now }

/-- RedisService.updateCountryLastActivity: SET the per-country
last-activity key to now. -/
def updateCountryLastActivity (s : RedisState) (countryCode : String) (now : ℤ) :
    RedisState :=
  { s with lastActivities := setValue s.lastActivities countryCode now }

/-! ## Scroll-batch validator (src/services/game.service.ts) -/

/-- Result of GameService.processScrollBatch: null (rejected) or a success
object. -/
inductive BatchResult where
  | rejected
  | success
  deriving DecidableEq, Repr

/-- GameService.processScrollBatch: convert the pixel delta to canonical
millimeters, reject when the implied velocity exceeds the configured
ceiling, and otherwise increment the country height and record the global
and per-country last-activity timestamps. -/
def processScrollBatch (s : RedisState) (countryCode : String)
    (deltaPixels timeSinceLastBatch : ℚ) (now : ℤ) : BatchResult × RedisState :=
  let deltaMillimeters : ℤ := pixelsToMillimeters deltaPixels
  let velocityMmPerSec : ℚ := ((deltaMillimeters : ℚ) / timeSinceLastBatch) * 1000
  if MAX_VELOCITY_MM_PER_SECOND < velocityMmPerSec then
    (BatchResult.rejected, s)
  else
    let s1 := (incrementCountryHeight s countryCode deltaMillimeters).2
    let s2 := updateLastActivity s1 now
    let s3 := updateCountryLastActivity s2 countryCode now
    (BatchResult.success, s3)

/-- Transport-layer validation of a scroll batch (socket controller):
ScrollBatchSchema requires delta to be a positive number of at most
MAX_PIXELS_PER_BATCH = 10000 pixels. -/
def scrollBatchSchemaAccepts (delta : ℚ) : Prop :=
  0 < delta ∧ delta ≤ 10000

instance (delta : ℚ) : Decidable (scrollBatchSchemaAccepts delta) :=
  inferInstanceAs (Decidable (_ ∧ _))

/-! ## Gravity worker (src/workers/gravity.worker.ts) -/

/-- Body of the per-country loop of one gravity tick: skip a country whose
snapshot height is not positive, otherwise decrement it by the decay amount
when it has been idle longer than the threshold (a missing last-activity
timestamp counts as 0). -/
def gravityStep (countryActivities : List (String × ℤ)) (now : ℤ)
    (acc : RedisState) (entry : String × ℤ) : RedisState :=
  if entry.2 ≤ 0 then acc
  else
    let lastActivity := (lookup countryActivities entry.1).getD 0
    let idleTime := now - lastActivity
    if COUNTRY_IDLE_THRESHOLD_MS < idleTime then
      (decreaseCountryHeight acc entry.1 GRAVITY_DECAY_MM_PER_TICK).2
    else acc

/-- One tick of startGravityWorker: read all country heights, return early
when there are none, otherwise read all last activities and run the
per-country loop. -/
def gravityTick (s : RedisState) (now : ℤ) : RedisState :=
  let countryHeights := getAllCountryHeights s
  if countryHeights.isEmpty then s
  else
    let countryActivities := getAllCountryLastActivities s
    countryHeights.foldl (gravityStep countryActivities now) s

/-! ## Global-height (rollup) worker (src/workers/global-height.worker.ts) -/

/-- Private cross-tick state of the rollup worker. -/
structure GlobalHeightWorkerState where
  previousHeight : ℤ
  currentVelocity : ℚ
  deriving DecidableEq, Repr

/-- One tick of startGlobalHeightWorker: recompute the global total from
the country heights, derive the velocity from the change since the previous
tick, publish the total (SET, an overwrite) and retain it for the next
tick. -/
def globalHeightTick (s : RedisState) (w : GlobalHeightWorkerState) :
    RedisState × GlobalHeightWorkerState :=
  let globalHeightMm := calculateGlobalHeightFromCountries s
  let heightDelta := globalHeightMm - w.previousHeight
  let velocity : ℚ := (heightDelta : ℚ) / VELOCITY_WINDOW_SECONDS
  (setGlobalHeight s (toString globalHeightMm), ⟨globalHeightMm, velocity⟩)

/-! ## Persistence pipeline (src/workers/persistence.worker.ts and the
aggregation job) -/

/-- One row of the transactionHistoryRaw table. -/
structure RawRecord where
  countryCode : String
  height : ℤ
  recordedAt : ℤ
  deriving DecidableEq, Repr

/-- One row of the transactionHistoryDaily table. -/
structure DailyRecord where
  countryCode : String
  recordedAt : ℤ
  height : ℤ
  minHeight : ℤ
  maxHeight : ℤ
  sampleCount : ℕ
  deriving DecidableEq, Repr

/-- The durable store: the raw table and the daily table. -/
structure Database where
  raw : List RawRecord
  daily : List DailyRecord
  deriving DecidableEq, Repr

/-- One tick of startPersistenceWorker: read all country heights and, when
there is at least one, append one raw row per returned country for this
timestamp; otherwise do nothing. -/
def persistenceTick (s : RedisState) (db : Database) (now : ℤ) : Database :=
  let countryHeights := getAllCountryHeights s
  if 0 < countryHeights.length then
    { db with
      raw := db.raw ++ countryHeights.map (fun p => ⟨p.1, p.2, now⟩) }
  else db

/-- Raw-retention window of the aggregation job: 1 day in milliseconds. -/
def RETENTION_RAW_DURATION_MS : ℤ := 1 * 24 * 60 * 60 * 1000

/-- Milliseconds per day. -/
def MS_PER_DAY : ℤ := 86400000

/-- UTC calendar day of a millisecond timestamp, the grouping component
produced by toISOString().split("T")[0]. -/
def dayOf (t : ℤ) : ℤ := Int.fdiv t MS_PER_DAY

/-- Grouping key of a raw record: the source builds the string
countryCode ++ ":" ++ isoDay; for the colon-free country codes the service
produces, that string key is in bijection with this pair. -/
def dailyGroupKey (r : RawRecord) : String × ℤ :=
  (r.countryCode, dayOf r.recordedAt)

/-- The utils average helper: sum divided by length, 0 on an empty list. -/
def average (numbers : List ℚ) : ℚ :=
  if numbers.length = 0 then 0
  else (numbers.foldl (fun sum n => sum + n) 0) / (numbers.length : ℚ)

/-- Math.min over a list (groups are nonempty when it is used). -/
def listMin : List ℚ → ℚ
  | [] => 0
  | a :: l => l.foldl min a

/-- Math.max over a list (groups are nonempty when it is used). -/
def listMax : List ℚ → ℚ
  | [] => 0
  | a :: l => l.foldl max a

/-- Keys of a JavaScript object built by insertion: each distinct key in
first-seen order. -/
def firstOccurrences {α : Type} [DecidableEq α] : List α → List α
  | [] => []
  | a :: l => a :: firstOccurrences (l.filter (fun b => decide (b ≠ a)))
termination_by l => l.length
decreasing_by
  simp only [List.length_cons]
  exact Nat.lt_succ_of_le (List.length_filter_le _ _)

/-- The raw records falling into the group of a key. -/
def groupFor (records : List RawRecord) (key : String × ℤ) : List RawRecord :=
  records.filter (fun r => decide (dailyGroupKey r = key))

/-- One created transactionHistoryDaily row for a group: the first records
timestamp, the rounded average and the minimum, maximum and count of the
group heights. -/
def summarize (records : List RawRecord) (key : String × ℤ) : DailyRecord :=
  let group := groupFor records key
  let heights := group.map (fun r => (r.height : ℚ))
  { countryCode := key.1
    recordedAt := ((group.head?).map (fun r => r.recordedAt)).getD 0
    height := jsRound (average heights)
    minHeight := jsRound (listMin heights)
    maxHeight := jsRound (listMax heights)
    sampleCount := group.length }

/-- The raw rows older than the retention cutoff, in ascending recordedAt
order (the findMany with recordedAt < cutoff, orderBy asc). -/
def oldRawRecords (db : Database) (now : ℤ) : List RawRecord :=
  List.insertionSort (fun a b => a.recordedAt ≤ b.recordedAt)
    (db.raw.filter (fun r => decide (r.recordedAt < now - RETENTION_RAW_DURATION_MS)))

/-- The daily rows created by one aggregation run: one per group key of the
selected raw rows, in first-seen key order. -/
def newDailyRecords (db : Database) (now : ℤ) : List DailyRecord :=
  let records := oldRawRecords db now
  (firstOccurrences (records.map dailyGroupKey)).map (summarize records)

/-- aggregateRawToDaily: select the raw rows older than the retention
cutoff, return unchanged when there are none, and otherwise run a single
transaction that creates one daily row per (country, day) group and deletes
the raw rows older than the cutoff.  The commit flag models the
prisma transaction boundary: both effects are applied together when the
transaction commits, and a failed run leaves the database unchanged. -/
def aggregateRawToDaily (db : Database) (now : ℤ) (commit : Bool) : Database :=
  let rawRecords := oldRawRecords db now
  if rawRecords.isEmpty then db
  else if commit then
    { raw := db.raw.filter (fun r => decide (¬ r.recordedAt < now - RETENTION_RAW_DURATION_MS))
      daily := db.daily ++ newDailyRecords db now }
  else db

/-! ## Store-level operation machine (for the height invariant) -/

/-- The operations that mutate regional heights: a contribution increment,
a store decrement, a gravity (decay) tick and a rollup tick. -/
inductive StoreOp where
  | increment (countryCode : String) (amount : ℤ)
  | decrement (countryCode : String) (amount : ℤ)
  | decay (now : ℤ)
  | rollup (w : GlobalHeightWorkerState)
  deriving Repr

/-- Apply one operation to the store. -/
def applyOp (s : RedisState) : StoreOp → RedisState
  | StoreOp.increment c a => (incrementCountryHeight s c a).2
  | StoreOp.decrement c a => (decreaseCountryHeight s c a).2
  | StoreOp.decay now => gravityTick s now
  | StoreOp.rollup w => (globalHeightTick s w).1

/-- Well-formedness of one operation: increments carry a non-negative
amount (the validator only ever forwards converted non-negative deltas). -/
def opOK : StoreOp → Bool
  | StoreOp.increment _ a => decide (0 ≤ a)
  | _ => true

/-- All stored regional heights are non-negative. -/
def heightsNonneg (s : RedisState) : Prop := ∀ p ∈ s.heights, 0 ≤ p.2

instance (s : RedisState) : Decidable (heightsNonneg s) :=
  inferInstanceAs (Decidable (∀ p ∈ s.heights, 0 ≤ p.2))

/-! ## Association-list lemmas -/

theorem lookup_append (l1 l2 : List (String × ℤ)) (k : String) :
    lookup (l1 ++ l2) k =
      match lookup l1 k with
      | some v => some v
      | none => lookup l2 k := by
  induction l1 with
  | nil => rfl
  | cons p l ih =>
      simp only [List.cons_append, lookup]
      by_cases h : p.1 = k <;> simp [h, ih]

theorem lookup_map_update_self (l : List (String × ℤ)) (k : String) (v : ℤ) :
    lookup (l.map (fun p => if p.1 = k then (p.1, v) else p)) k =
      (lookup l k).map (fun _ => v) := by
  induction l with
  | nil => rfl
  | cons p l ih =>
      simp only [List.map_cons, lookup]
      by_cases h : p.1 = k
      · simp [h, lookup, apply_ite Prod.fst, apply_ite Prod.snd]
      · simp [h, lookup, ih, apply_ite Prod.fst]

theorem lookup_map_update_other (l : List (String × ℤ)) (k k2 : String) (v : ℤ)
    (h : k2 ≠ k) :
    lookup (l.map (fun p => if p.1 = k then (p.1, v) else p)) k2 = lookup l k2 := by
  induction l with
  | nil => rfl
  | cons p l ih =>
      simp only [List.map_cons, lookup]
      by_cases hk : p.1 = k
      · have hkk2 : ¬ k = k2 := fun hc => h hc.symm
        simp [hk, lookup, hkk2, ih]
      · simp [hk, lookup, ih]

theorem lookup_setValue_self (l : List (String × ℤ)) (k : String) (v : ℤ) :
    lookup (setValue l k v) k = some v := by
  unfold setValue
  cases h : lookup l k with
  | some v0 => simp [lookup_map_update_self, h]
  | none => simp [lookup_append, h, lookup]

theorem lookup_setValue_other (l : List (String × ℤ)) (k k2 : String) (v : ℤ)
    (h : k2 ≠ k) :
    lookup (setValue l k v) k2 = lookup l k2 := by
  unfold setValue
  cases hl : lookup l k with
  | some v0 => simp [lookup_map_update_other _ _ _ _ h]
  | none =>
      rw [lookup_append]
      cases h2 : lookup l k2 with
      | some w => simp [h2]
      | none =>
          have hkk2 : ¬ k = k2 := fun hc => h hc.symm
          simp [h2, lookup, hkk2]

theorem mem_setValue (l : List (String × ℤ)) (k : String) (v : ℤ)
    (q : String × ℤ) (h : q ∈ setValue l k v) : q ∈ l ∨ q.2 = v := by
  unfold setValue at h
  cases hl : lookup l k with
  | some v0 =>
      rw [hl] at h
      rcases List.mem_map.mp h with ⟨p, hp, hq⟩
      by_cases hk : p.1 = k
      · right; simp [hk] at hq; rw [← hq]
      · left; simp [hk] at hq; rwa [← hq]
  | none =>
      rw [hl] at h
      rcases List.mem_append.mp h with h1 | h1
      · exact Or.inl h1
      · right; simp at h1; rw [h1]

theorem lookup_eq_none_iff (l : List (String × ℤ)) (k : String) :
    lookup l k = none ↔ k ∉ l.map Prod.fst := by
  induction l with
  | nil => simp [lookup]
  | cons p l ih =>
      simp only [lookup, List.map_cons, List.mem_cons]
      by_cases h : p.1 = k
      · simp [h]
      · rw [if_neg h, ih]
        constructor
        · exact fun hk hc => hc.elim (fun hc1 => h hc1.symm) hk
        · exact fun hk hc => hk (Or.inr hc)

theorem mem_of_lookup_eq_some (l : List (String × ℤ)) (k : String) (v : ℤ)
    (h : lookup l k = some v) : (k, v) ∈ l := by
  induction l with
  | nil => simp [lookup] at h
  | cons p l ih =>
      simp only [lookup] at h
      by_cases hk : p.1 = k
      · simp only [hk, if_true] at h
        injection h with h2
        rw [List.mem_cons]
        left
        cases p
        simp_all
      · simp only [hk, if_false] at h
        exact List.mem_cons_of_mem _ (ih h)

theorem lookup_eq_some_of_mem (l : List (String × ℤ)) (k : String) (v : ℤ)
    (hnd : (l.map Prod.fst).Nodup) (hm : (k, v) ∈ l) : lookup l k = some v := by
  induction l with
  | nil => simp at hm
  | cons p l ih =>
      simp only [List.map_cons, List.nodup_cons] at hnd
      rcases List.mem_cons.mp hm with h1 | h1
      · rw [← h1]; simp [lookup]
      · have hk : p.1 ≠ k := by
          intro hc
          exact hnd.1 (hc ▸ List.mem_map_of_mem Prod.fst h1)
        simp only [lookup, hk, if_false]
        exact ih hnd.2 h1

theorem map_fst_map_update (l : List (String × ℤ)) (k : String) (v : ℤ) :
    (l.map (fun p => if p.1 = k then (p.1, v) else p)).map Prod.fst = l.map Prod.fst := by
  induction l with
  | nil => rfl
  | cons p l ih =>
      simp only [List.map_cons, ih, List.cons.injEq, and_true]
      by_cases h : p.1 = k <;> simp [h]

theorem nodup_keys_setValue (l : List (String × ℤ)) (k : String) (v : ℤ)
    (h : (l.map Prod.fst).Nodup) : ((setValue l k v).map Prod.fst).Nodup := by
  unfold setValue
  cases hl : lookup l k with
  | some v0 => rw [map_fst_map_update]; exact h
  | none =>
      have hk : k ∉ l.map Prod.fst := (lookup_eq_none_iff l k).mp hl
      rw [List.map_append]
      simp [List.nodup_append, h, hk, List.disjoint_singleton]

/-! ## Snapshot-read lemmas -/

theorem getAllCountryHeights_perm (s : RedisState) :
    List.Perm (getAllCountryHeights s) (s.heights.filter (fun p => decide (0 < p.2))) :=
  List.perm_insertionSort _ _

theorem mem_getAllCountryHeights (s : RedisState) (p : String × ℤ) :
    p ∈ getAllCountryHeights s ↔ p ∈ s.heights ∧ 0 < p.2 := by
  rw [(getAllCountryHeights_perm s).mem_iff, List.mem_filter]
  simp

theorem nodup_keys_getAllCountryHeights (s : RedisState)
    (h : (s.heights.map Prod.fst).Nodup) :
    ((getAllCountryHeights s).map Prod.fst).Nodup := by
  have hp := (getAllCountryHeights_perm s).map Prod.fst
  rw [hp.nodup_iff]
  exact List.Nodup.sublist ((List.filter_sublist s.heights).map Prod.fst) h

/-! ## Rollup lemmas: the published total is the live sum (C1) -/

theorem foldl_add_snd (l : List (String × ℤ)) (init : ℤ) :
    l.foldl (fun total p => total + p.2) init = init + (l.map Prod.snd).sum := by
  induction l generalizing init with
  | nil => simp
  | cons p l ih => simp [ih, add_assoc]

theorem sum_filter_pos (l : List (String × ℤ)) (h : ∀ p ∈ l, 0 ≤ p.2) :
    ((l.filter (fun p => decide (0 < p.2))).map Prod.snd).sum = (l.map Prod.snd).sum := by
  induction l with
  | nil => rfl
  | cons p l ih =>
      have h2 := ih (fun q hq => h q (List.mem_cons_of_mem _ hq))
      by_cases hp : 0 < p.2
      · simp [List.filter_cons, hp, h2]
      · have hz : p.2 = 0 := le_antisymm (not_lt.mp hp) (h p (List.mem_cons_self _ _))
        simp [List.filter_cons, hp, h2, hz]

theorem calculateGlobal_eq_sum (s : RedisState) (h : heightsNonneg s) :
    calculateGlobalHeightFromCountries s = (s.heights.map Prod.snd).sum := by
  unfold calculateGlobalHeightFromCountries
  rw [foldl_add_snd, zero_add]
  have hperm := ((getAllCountryHeights_perm s).map Prod.snd).sum_eq
  rw [hperm, sum_filter_pos _ h]

/-- C1: on every rollup tick the published global total is the decimal
string of the sum of all regional heights read from the store at that tick,
whatever value was published before (overwrite, not increment), and a tick
that observes zero regions publishes the string "0". -/
theorem rollup_publishes_live_sum (s : RedisState) (w : GlobalHeightWorkerState)
    (h : heightsNonneg s) :
    ((globalHeightTick s w).1.globalHeight = toString ((s.heights.map Prod.snd).sum)) ∧
    (∀ g : String, (globalHeightTick (setGlobalHeight s g) w).1.globalHeight
        = toString ((s.heights.map Prod.snd).sum)) ∧
    (s.heights = [] → (globalHeightTick s w).1.globalHeight = "0") := by
  refine ⟨?_, ?_, ?_⟩
  · show toString (calculateGlobalHeightFromCountries s) = _
    rw [calculateGlobal_eq_sum s h]
  · intro g
    show toString (calculateGlobalHeightFromCountries (setGlobalHeight s g)) = _
    have he : calculateGlobalHeightFromCountries (setGlobalHeight s g)
        = calculateGlobalHeightFromCountries s := rfl
    rw [he, calculateGlobal_eq_sum s h]
  · intro he
    show toString (calculateGlobalHeightFromCountries s) = "0"
    rw [calculateGlobal_eq_sum s h, he]
    rfl

/-- Concrete store for the rollup witness: regions A at 100 and B at 250. -/
def exRollupState : RedisState := ⟨[("A", 100), ("B", 250)], [], none, "0"⟩

/-- Witness for C1 at the store {A: 100, B: 250}: the tick publishes "350". -/
theorem rollup_publishes_live_sum_witness :
    heightsNonneg exRollupState ∧
    (globalHeightTick exRollupState ⟨0, 0⟩).1.globalHeight = "350" :=
  ⟨by decide,
    ((rollup_publishes_live_sum exRollupState ⟨0, 0⟩ (by decide)).1).trans (by decide)⟩

/-! ## Unit-converter monotonicity (C10) and the per-batch ceiling (C8) -/

theorem pixelsToMillimeters_mono {a b : ℚ} (h : a ≤ b) :
    pixelsToMillimeters a ≤ pixelsToMillimeters b := by
  unfold pixelsToMillimeters jsRound
  apply Int.floor_le_floor
  have hr : (0:ℚ) ≤ MM_PER_PIXEL := by
    norm_num [MM_PER_PIXEL, MM_PER_INCH, CSS_PIXELS_PER_INCH]
  have h2 := mul_le_mul_of_nonneg_right h hr
  linarith

/-- C10: the unit converter is monotone. -/
theorem toCanonicalUnits_monotone (a b : ℚ) (h : a < b) :
    pixelsToMillimeters a ≤ pixelsToMillimeters b :=
  pixelsToMillimeters_mono (le_of_lt h)

/-- Witness for C10 at 3 < 4. -/
theorem toCanonicalUnits_monotone_witness :
    (3:ℚ) < 4 ∧ pixelsToMillimeters 3 ≤ pixelsToMillimeters 4 :=
  ⟨by decide, toCanonicalUnits_monotone 3 4 (by decide)⟩

/-- Empty store used by the validator witnesses. -/
def exBatchState : RedisState := ⟨[], [], none, "0"⟩

/-- C8 counterexample: a 20000-pixel batch converts to 5292 mm, above the
2646 mm per-batch ceiling, yet processScrollBatch accepts it when the
supplied elapsed time is 10000 ms, because the validator checks only the
velocity and never the per-batch ceiling. -/
theorem batch_ceiling_not_enforced_by_validator :
    MAX_MM_PER_BATCH < pixelsToMillimeters 20000 ∧
    (processScrollBatch exBatchState "TH" 20000 10000 0).1 = BatchResult.success := by
  have hd : pixelsToMillimeters 20000 = 5292 := by
    norm_num [pixelsToMillimeters, jsRound, MM_PER_PIXEL, MM_PER_INCH,
      CSS_PIXELS_PER_INCH, Int.floor_eq_iff]
  have hmax : MAX_MM_PER_BATCH = 2646 := by
    norm_num [MAX_MM_PER_BATCH, MAX_PIXELS_PER_BATCH, pixelsToMillimeters, jsRound,
      MM_PER_PIXEL, MM_PER_INCH, CSS_PIXELS_PER_INCH, Int.floor_eq_iff]
  constructor
  · rw [hmax, hd]; norm_num
  · simp only [processScrollBatch]
    rw [if_neg]
    rw [hd]
    norm_num [MAX_VELOCITY_MM_PER_SECOND, BASE_MAX_VELOCITY_MM_PER_SECOND,
      MAX_VELOCITY_MULTIPLIER]

/-- C8 amended: the per-batch ceiling is enforced upstream of the
validator, by the transport-layer schema; every batch the schema admits has
a canonical delta of at most MAX_MM_PER_BATCH. -/
theorem batch_ceiling_enforced_at_transport (delta : ℚ)
    (h : scrollBatchSchemaAccepts delta) :
    pixelsToMillimeters delta ≤ MAX_MM_PER_BATCH := by
  unfold MAX_MM_PER_BATCH MAX_PIXELS_PER_BATCH
  exact pixelsToMillimeters_mono h.2

/-- Witness for the amended C8 at the schema boundary delta = 10000. -/
theorem batch_ceiling_enforced_at_transport_witness :
    scrollBatchSchemaAccepts 10000 ∧ pixelsToMillimeters 10000 ≤ MAX_MM_PER_BATCH :=
  ⟨by decide, batch_ceiling_enforced_at_transport 10000 (by decide)⟩

/-! ## Validator velocity boundary (C2) and rejection purity (C9) -/

/-- C2: the validator accepts a contribution whose implied velocity
deltaCanonical / elapsedMs * 1000 is at most the configured ceiling and
rejects one whose implied velocity is strictly above it. -/
theorem validator_velocity_boundary (s : RedisState) (countryCode : String)
    (deltaPixels timeSinceLastBatch : ℚ) (now : ℤ)
    (ht : 0 < timeSinceLastBatch) :
    (((pixelsToMillimeters deltaPixels : ℚ) / timeSinceLastBatch) * 1000
        ≤ MAX_VELOCITY_MM_PER_SECOND →
      (processScrollBatch s countryCode deltaPixels timeSinceLastBatch now).1
        = BatchResult.success) ∧
    (MAX_VELOCITY_MM_PER_SECOND
        < ((pixelsToMillimeters deltaPixels : ℚ) / timeSinceLastBatch) * 1000 →
      (processScrollBatch s countryCode deltaPixels timeSinceLastBatch now).1
        = BatchResult.rejected) := by
  constructor
  · intro hv
    simp only [processScrollBatch]
    rw [if_neg (not_lt.mpr hv)]
  · intro hv
    simp only [processScrollBatch]
    rw [if_pos hv]

/-- Witness for C2: with the 2000 mm/s ceiling, a 2000 mm delta over
1000 ms is accepted and a 2001 mm delta over 1000 ms is rejected. -/
theorem validator_velocity_boundary_witness :
    (0:ℚ) < 1000 ∧
    pixelsToMillimeters 7559 = 2000 ∧
    (processScrollBatch exBatchState "TH" 7559 1000 0).1 = BatchResult.success ∧
    pixelsToMillimeters 7562 = 2001 ∧
    (processScrollBatch exBatchState "TH" 7562 1000 0).1 = BatchResult.rejected := by
  have h1 : pixelsToMillimeters 7559 = 2000 := by
    norm_num [pixelsToMillimeters, jsRound, MM_PER_PIXEL, MM_PER_INCH,
      CSS_PIXELS_PER_INCH, Int.floor_eq_iff]
  have h2 : pixelsToMillimeters 7562 = 2001 := by
    norm_num [pixelsToMillimeters, jsRound, MM_PER_PIXEL, MM_PER_INCH,
      CSS_PIXELS_PER_INCH, Int.floor_eq_iff]
  refine ⟨by decide, h1, ?_, h2, ?_⟩
  · exact (validator_velocity_boundary exBatchState "TH" 7559 1000 0 (by decide)).1
      (by rw [h1]; norm_num [MAX_VELOCITY_MM_PER_SECOND,
        BASE_MAX_VELOCITY_MM_PER_SECOND, MAX_VELOCITY_MULTIPLIER])
  · exact (validator_velocity_boundary exBatchState "TH" 7562 1000 0 (by decide)).2
      (by rw [h2]; norm_num [MAX_VELOCITY_MM_PER_SECOND,
        BASE_MAX_VELOCITY_MM_PER_SECOND, MAX_VELOCITY_MULTIPLIER])

/-- C9: a rejected contribution returns the declined status and leaves the
whole store untouched: no height increment, no global or per-region
last-activity update. -/
theorem rejected_contribution_no_mutation (s : RedisState) (countryCode : String)
    (deltaPixels timeSinceLastBatch : ℚ) (now : ℤ)
    (h : MAX_VELOCITY_MM_PER_SECOND
        < ((pixelsToMillimeters deltaPixels : ℚ) / timeSinceLastBatch) * 1000) :
    processScrollBatch s countryCode deltaPixels timeSinceLastBatch now
      = (BatchResult.rejected, s) := by
  simp only [processScrollBatch]
  rw [if_pos h]

/-- Witness for C9: the rejected 2001 mm batch leaves the store unchanged. -/
theorem rejected_contribution_no_mutation_witness :
    MAX_VELOCITY_MM_PER_SECOND < ((pixelsToMillimeters 7562 : ℚ) / 1000) * 1000 ∧
    processScrollBatch exBatchState "TH" 7562 1000 0 = (BatchResult.rejected, exBatchState) := by
  have h2 : pixelsToMillimeters 7562 = 2001 := by
    norm_num [pixelsToMillimeters, jsRound, MM_PER_PIXEL, MM_PER_INCH,
      CSS_PIXELS_PER_INCH, Int.floor_eq_iff]
  have hv : MAX_VELOCITY_MM_PER_SECOND < ((pixelsToMillimeters 7562 : ℚ) / 1000) * 1000 := by
    rw [h2]
    norm_num [MAX_VELOCITY_MM_PER_SECOND, BASE_MAX_VELOCITY_MM_PER_SECOND,
      MAX_VELOCITY_MULTIPLIER]
  exact ⟨hv, rejected_contribution_no_mutation exBatchState "TH" 7562 1000 0 hv⟩

/-! ## Store decrement semantics (C4) -/

/-- C4: for a non-negative amount, the decrement subtracts exactly
min(amount, currentValue) and returns the post-decrement value, leaving
every other key and every other field untouched, and it returns 0 without
changing anything when the region does not exist or is already at zero. -/
theorem decrement_clamps_at_zero (s : RedisState) (countryCode : String) (amount : ℤ)
    (ha : 0 ≤ amount) :
    ((lookup s.heights countryCode = none ∨ lookup s.heights countryCode = some 0) →
      decreaseCountryHeight s countryCode amount = (0, s)) ∧
    (∀ c, lookup s.heights countryCode = some c → 0 < c →
      (decreaseCountryHeight s countryCode amount).1 = c - min amount c ∧
      lookup (decreaseCountryHeight s countryCode amount).2.heights countryCode
        = some (c - min amount c) ∧
      (∀ k, k ≠ countryCode →
        lookup (decreaseCountryHeight s countryCode amount).2.heights k
          = lookup s.heights k) ∧
      (decreaseCountryHeight s countryCode amount).2.lastActivities = s.lastActivities ∧
      (decreaseCountryHeight s countryCode amount).2.globalLastActivity
        = s.globalLastActivity ∧
      (decreaseCountryHeight s countryCode amount).2.globalHeight = s.globalHeight) := by
  constructor
  · intro h0
    have hc : (lookup s.heights countryCode).getD 0 = 0 := by
      rcases h0 with h0 | h0 <;> rw [h0] <;> rfl
    simp [decreaseCountryHeight, hc]
  · intro c hc hpos
    have hgd : (lookup s.heights countryCode).getD 0 = c := by rw [hc]; rfl
    have hne : ¬ (lookup s.heights countryCode).getD 0 ≤ 0 := by
      rw [hgd]; exact not_le.mpr hpos
    have hval : (lookup s.heights countryCode).getD 0 + -min amount ((lookup s.heights countryCode).getD 0)
        = c - min amount c := by rw [hgd]; omega
    refine ⟨?_, ?_, ?_, ?_, ?_, ?_⟩
    · simp [decreaseCountryHeight, incrBy, hne, hval]
    · simp only [decreaseCountryHeight, incrBy, if_neg hne]
      rw [lookup_setValue_self, hval]
    · intro k hk
      simp only [decreaseCountryHeight, incrBy, if_neg hne]
      exact lookup_setValue_other _ _ _ _ hk
    · simp [decreaseCountryHeight, incrBy, hne]
    · simp [decreaseCountryHeight, incrBy, hne]
    · simp [decreaseCountryHeight, incrBy, hne]

/-- Region TH at height 10, for the decrement witness. -/
def exDecState : RedisState := ⟨[("TH", 10)], [], none, "0"⟩

/-- Empty store for the decrement no-op witness. -/
def exDecEmpty : RedisState := ⟨[], [], none, "0"⟩

/-- Witness for C4: height 10 decremented by 26 ends at 0 (not -16), and a
decrement on a missing region is a no-op returning 0. -/
theorem decrement_clamps_at_zero_witness :
    (0:ℤ) ≤ 26 ∧
    (decreaseCountryHeight exDecState "TH" 26).1 = 0 ∧
    lookup (decreaseCountryHeight exDecState "TH" 26).2.heights "TH" = some 0 ∧
    decreaseCountryHeight exDecEmpty "TH" 26 = (0, exDecEmpty) := by
  have h := decrement_clamps_at_zero exDecState "TH" 26 (by decide)
  have h2 := decrement_clamps_at_zero exDecEmpty "TH" 26 (by decide)
  refine ⟨by decide, ?_, ?_, ?_⟩
  · rw [(h.2 10 (by decide) (by decide)).1]; decide
  · rw [(h.2 10 (by decide) (by decide)).2.1]; decide
  · exact h2.1 (Or.inl (by decide))

/-! ## The heights-never-negative invariant (C3) -/

theorem nonneg_setValue (l : List (String × ℤ)) (k : String) (v : ℤ)
    (hl : ∀ p ∈ l, 0 ≤ p.2) (hv : 0 ≤ v) :
    ∀ p ∈ setValue l k v, 0 ≤ p.2 :=
  fun p hp => (mem_setValue l k v p hp).elim (hl p) (fun h => h ▸ hv)

theorem lookup_getD_nonneg (l : List (String × ℤ)) (k : String)
    (h : ∀ p ∈ l, 0 ≤ p.2) : 0 ≤ (lookup l k).getD 0 := by
  cases hl : lookup l k with
  | none => simp
  | some v => simpa using h _ (mem_of_lookup_eq_some _ _ _ hl)

theorem increment_preserves_nonneg (s : RedisState) (code : String) (amount : ℤ)
    (ha : 0 ≤ amount) (h : heightsNonneg s) :
    heightsNonneg (incrementCountryHeight s code amount).2 := by
  intro p hp
  simp only [incrementCountryHeight, incrBy] at hp
  have h0 := lookup_getD_nonneg s.heights code h
  exact nonneg_setValue _ _ _ h (by omega) p hp

theorem decrease_preserves_nonneg (s : RedisState) (code : String) (amount : ℤ)
    (h : heightsNonneg s) :
    heightsNonneg (decreaseCountryHeight s code amount).2 := by
  by_cases hle : (lookup s.heights code).getD 0 ≤ 0
  · intro p hp
    simp only [decreaseCountryHeight, if_pos hle] at hp
    exact h p hp
  · intro p hp
    simp only [decreaseCountryHeight, incrBy, if_neg hle] at hp
    have hmin : min amount ((lookup s.heights code).getD 0)
        ≤ (lookup s.heights code).getD 0 := min_le_right _ _
    exact nonneg_setValue _ _ _ h (by omega) p hp

theorem gravityStep_preserves_nonneg (acts : List (String × ℤ)) (now : ℤ)
    (acc : RedisState) (entry : String × ℤ) (h : heightsNonneg acc) :
    heightsNonneg (gravityStep acts now acc entry) := by
  simp only [gravityStep]
  split
  · exact h
  · split
    · exact decrease_preserves_nonneg _ _ _ h
    · exact h

theorem foldl_gravityStep_preserves_nonneg (acts : List (String × ℤ)) (now : ℤ) :
    ∀ (L : List (String × ℤ)) (acc : RedisState), heightsNonneg acc →
      heightsNonneg (L.foldl (gravityStep acts now) acc)
  | [], _, h => h
  | p :: L, acc, h =>
      foldl_gravityStep_preserves_nonneg acts now L _
        (gravityStep_preserves_nonneg acts now acc p h)

theorem gravityTick_preserves_nonneg (s : RedisState) (now : ℤ)
    (h : heightsNonneg s) : heightsNonneg (gravityTick s now) := by
  simp only [gravityTick]
  split
  · exact h
  · exact foldl_gravityStep_preserves_nonneg _ _ _ _ h

/-- C3: for every sequence of store operations (increments with
non-negative amounts, decrements, decay ticks, rollup ticks), every stored
regional height stays non-negative. -/
theorem store_heights_never_negative (ops : List StoreOp) (s : RedisState)
    (h0 : heightsNonneg s) (hops : ∀ op ∈ ops, opOK op = true) :
    heightsNonneg (ops.foldl applyOp s) := by
  induction ops generalizing s with
  | nil => exact h0
  | cons op ops ih =>
      rw [List.foldl_cons]
      have hop := hops op (List.mem_cons_self _ _)
      have hrest : ∀ o ∈ ops, opOK o = true :=
        fun o ho => hops o (List.mem_cons_of_mem _ ho)
      refine ih _ ?_ hrest
      cases op with
      | increment c a =>
          have ha : 0 ≤ a := by simpa [opOK] using hop
          exact increment_preserves_nonneg s c a ha h0
      | decrement c a => exact decrease_preserves_nonneg s c a h0
      | decay now => exact gravityTick_preserves_nonneg s now h0
      | rollup w => exact fun p hp => h0 p hp

/-- An operation sequence exercising every constructor, for the invariant
witness. -/
def exOps : List StoreOp :=
  [StoreOp.increment "TH" 40, StoreOp.decrement "TH" 100,
   StoreOp.decay 100000, StoreOp.rollup ⟨0, 0⟩]

/-- Start state for the invariant witness. -/
def exOpsState : RedisState := ⟨[("TH", 10), ("JP", 3)], [("JP", 99999)], none, "0"⟩

/-- Witness for C3 on a concrete operation sequence. -/
theorem store_heights_never_negative_witness :
    heightsNonneg exOpsState ∧ (∀ op ∈ exOps, opOK op = true) ∧
    heightsNonneg (exOps.foldl applyOp exOpsState) :=
  ⟨by decide, by decide,
    store_heights_never_negative exOps exOpsState (by decide) (by decide)⟩

/-! ## Gravity-tick frame lemmas (C6) -/

theorem decrease_lookup_other (s : RedisState) (code : String) (amount : ℤ)
    (k : String) (hk : k ≠ code) :
    lookup (decreaseCountryHeight s code amount).2.heights k = lookup s.heights k := by
  by_cases hle : (lookup s.heights code).getD 0 ≤ 0
  · simp [decreaseCountryHeight, hle]
  · simp only [decreaseCountryHeight, incrBy, if_neg hle]
    exact lookup_setValue_other _ _ _ _ hk

theorem decrease_lookup_self (s : RedisState) (code : String) (amount : ℤ) (c : ℤ)
    (hc : lookup s.heights code = some c) (hpos : 0 < c) :
    lookup (decreaseCountryHeight s code amount).2.heights code
      = some (c - min amount c) := by
  have hgd : (lookup s.heights code).getD 0 = c := by rw [hc]; rfl
  have hne : ¬ (lookup s.heights code).getD 0 ≤ 0 := by rw [hgd]; exact not_le.mpr hpos
  simp only [decreaseCountryHeight, incrBy, if_neg hne]
  rw [lookup_setValue_self, hgd]
  have he : c + -min amount c = c - min amount c := by omega
  rw [he]

theorem decrease_fields (s : RedisState) (code : String) (amount : ℤ) :
    (decreaseCountryHeight s code amount).2.lastActivities = s.lastActivities ∧
    (decreaseCountryHeight s code amount).2.globalLastActivity = s.globalLastActivity := by
  simp only [decreaseCountryHeight, incrBy]
  split <;> exact ⟨rfl, rfl⟩

theorem gravityStep_lookup_other (acts : List (String × ℤ)) (now : ℤ)
    (acc : RedisState) (entry : String × ℤ) (k : String) (hk : k ≠ entry.1) :
    lookup (gravityStep acts now acc entry).heights k = lookup acc.heights k := by
  simp only [gravityStep]
  split
  · rfl
  · split
    · exact decrease_lookup_other acc entry.1 _ k hk
    · rfl

theorem gravityStep_fields (acts : List (String × ℤ)) (now : ℤ)
    (acc : RedisState) (entry : String × ℤ) :
    (gravityStep acts now acc entry).lastActivities = acc.lastActivities ∧
    (gravityStep acts now acc entry).globalLastActivity = acc.globalLastActivity := by
  simp only [gravityStep]
  split
  · exact ⟨rfl, rfl⟩
  · split
    · exact decrease_fields _ _ _
    · exact ⟨rfl, rfl⟩

theorem foldl_gravityStep_fields (acts : List (String × ℤ)) (now : ℤ) :
    ∀ (L : List (String × ℤ)) (acc : RedisState),
      (L.foldl (gravityStep acts now) acc).lastActivities = acc.lastActivities ∧
      (L.foldl (gravityStep acts now) acc).globalLastActivity = acc.globalLastActivity
  | [], _ => ⟨rfl, rfl⟩
  | p :: L, acc => by
      rw [List.foldl_cons]
      have h1 := foldl_gravityStep_fields acts now L (gravityStep acts now acc p)
      have h2 := gravityStep_fields acts now acc p
      exact ⟨h1.1.trans h2.1, h1.2.trans h2.2⟩

theorem foldl_gravityStep_lookup_notmem (acts : List (String × ℤ)) (now : ℤ)
    (code : String) :
    ∀ (L : List (String × ℤ)) (acc : RedisState), code ∉ L.map Prod.fst →
      lookup (L.foldl (gravityStep acts now) acc).heights code = lookup acc.heights code
  | [], _, _ => rfl
  | p :: L, acc, h => by
      rw [List.foldl_cons]
      simp only [List.map_cons, List.mem_cons] at h
      push_neg at h
      rw [foldl_gravityStep_lookup_notmem acts now code L _ h.2]
      exact gravityStep_lookup_other acts now acc p code h.1

theorem gravityStep_lookup_self (acts : List (String × ℤ)) (now : ℤ)
    (acc : RedisState) (code : String) (h : ℤ)
    (hacc : lookup acc.heights code = some h) (hpos : 0 < h) :
    lookup (gravityStep acts now acc (code, h)).heights code =
      some (if COUNTRY_IDLE_THRESHOLD_MS < now - (lookup acts code).getD 0
        then h - min GRAVITY_DECAY_MM_PER_TICK h else h) := by
  simp only [gravityStep]
  rw [if_neg (not_le.mpr hpos)]
  by_cases hidle : COUNTRY_IDLE_THRESHOLD_MS < now - (lookup acts code).getD 0
  · rw [if_pos hidle, if_pos hidle]
    exact decrease_lookup_self acc code _ h hacc hpos
  · rw [if_neg hidle, if_neg hidle]
    exact hacc

/-- C6: one gravity tick decrements (by the decrement operation with the
decay amount) exactly the regions whose snapshot height is positive and
whose idleness exceeds the threshold; every other region keeps its height,
and no last-activity timestamp (per-region or global) changes. -/
theorem gravity_tick_frame (s : RedisState) (now : ℤ)
    (hnd : (s.heights.map Prod.fst).Nodup) :
    (∀ code, lookup (gravityTick s now).heights code =
      (lookup s.heights code).map (fun h =>
        if 0 < h ∧ COUNTRY_IDLE_THRESHOLD_MS
            < now - (lookup s.lastActivities code).getD 0
        then h - min GRAVITY_DECAY_MM_PER_TICK h else h)) ∧
    (gravityTick s now).lastActivities = s.lastActivities ∧
    (gravityTick s now).globalLastActivity = s.globalLastActivity := by
  refine ⟨?_, ?_, ?_⟩
  · intro code
    cases hc : lookup s.heights code with
    | none =>
        have hnm : code ∉ (getAllCountryHeights s).map Prod.fst := by
          intro hm
          rcases List.mem_map.mp hm with ⟨p, hp, hpe⟩
          rcases (mem_getAllCountryHeights s p).mp hp with ⟨hmem, _⟩
          exact (lookup_eq_none_iff s.heights code).mp hc
            (hpe ▸ List.mem_map_of_mem Prod.fst hmem)
        simp only [gravityTick]
        split
        · rw [hc]; rfl
        · rw [foldl_gravityStep_lookup_notmem _ _ _ _ _ hnm, hc]; rfl
    | some h =>
        by_cases hpos : 0 < h
        · have hmm : (code, h) ∈ getAllCountryHeights s :=
            (mem_getAllCountryHeights s _).mpr ⟨mem_of_lookup_eq_some _ _ _ hc, hpos⟩
          have hL := nodup_keys_getAllCountryHeights s hnd
          rcases List.append_of_mem hmm with ⟨L1, L2, hsplit⟩
          rw [hsplit, List.map_append, List.map_cons] at hL
          have hmid := List.nodup_middle.mp hL
          rw [List.nodup_cons, List.mem_append] at hmid
          push_neg at hmid
          obtain ⟨⟨hn1, hn2⟩, _⟩ := hmid
          simp only [gravityTick]
          split
          next hemp =>
            exfalso
            rw [List.isEmpty_iff] at hemp
            rw [hemp] at hmm
            simp at hmm
          next =>
            rw [hsplit, List.foldl_append, List.foldl_cons]
            rw [foldl_gravityStep_lookup_notmem _ _ _ L2 _ hn2]
            have hacc : lookup
                ((L1.foldl (gravityStep (getAllCountryLastActivities s) now) s)).heights
                code = some h := by
              rw [foldl_gravityStep_lookup_notmem _ _ _ L1 _ hn1]
              exact hc
            rw [gravityStep_lookup_self _ _ _ _ _ hacc hpos]
            simp [hpos, getAllCountryLastActivities]
        · have hnm : code ∉ (getAllCountryHeights s).map Prod.fst := by
            intro hm
            rcases List.mem_map.mp hm with ⟨p, hp, hpe⟩
            rcases (mem_getAllCountryHeights s p).mp hp with ⟨hmem, hppos⟩
            have hcp : (code, p.2) ∈ s.heights := by
              rw [← hpe]
              cases p
              exact hmem
            have hl := lookup_eq_some_of_mem s.heights code p.2 hnd hcp
            rw [hc] at hl
            injection hl with he
            exact hpos (he ▸ hppos)
          simp only [gravityTick]
          split
          · rw [hc]
            simp [hpos]
          · rw [foldl_gravityStep_lookup_notmem _ _ _ _ _ hnm, hc]
            simp [hpos]
  · simp only [gravityTick]
    split
    · rfl
    · exact (foldl_gravityStep_fields _ _ _ _).1
  · simp only [gravityTick]
    split
    · rfl
    · exact (foldl_gravityStep_fields _ _ _ _).2

/-- Store for the gravity witness: TH idle since 0, US active at 99000, JP
with no recorded activity. -/
def exGravityState : RedisState :=
  ⟨[("TH", 100), ("JP", 10), ("US", 50)], [("TH", 0), ("US", 99000)], none, "0"⟩

/-- Witness for C6 at now = 100000: idle TH decays 100 to 74, JP (no
activity recorded) decays 10 to 0, active US keeps 50, and the
last-activity map is untouched. -/
theorem gravity_tick_frame_witness :
    (exGravityState.heights.map Prod.fst).Nodup ∧
    lookup (gravityTick exGravityState 100000).heights "TH" = some 74 ∧
    lookup (gravityTick exGravityState 100000).heights "JP" = some 0 ∧
    lookup (gravityTick exGravityState 100000).heights "US" = some 50 ∧
    (gravityTick exGravityState 100000).lastActivities = exGravityState.lastActivities := by
  have h := gravity_tick_frame exGravityState 100000 (by decide)
  have hdecay : GRAVITY_DECAY_MM_PER_TICK = 26 := by
    norm_num [GRAVITY_DECAY_MM_PER_TICK, BASE_GRAVITY_DECAY_MM_PER_TICK,
      GRAVITY_STRENGTH_MULTIPLIER, jsRound, Int.floor_eq_iff]
  refine ⟨by decide, ?_, ?_, ?_, h.2.1⟩
  · rw [h.1 "TH"]; simp only [hdecay]; decide
  · rw [h.1 "JP"]; simp only [hdecay]; decide
  · rw [h.1 "US"]; simp only [hdecay]; decide

/-! ## Raw-flush rows (C5) -/

theorem mem_getAllCountryHeights_lookup (s : RedisState)
    (hnd : (s.heights.map Prod.fst).Nodup) (code : String) (h : ℤ) :
    (code, h) ∈ getAllCountryHeights s ↔ (lookup s.heights code = some h ∧ 0 < h) := by
  rw [mem_getAllCountryHeights]
  constructor
  · rintro ⟨hm, hp⟩
    exact ⟨lookup_eq_some_of_mem _ _ _ hnd hm, hp⟩
  · rintro ⟨hl, hp⟩
    exact ⟨mem_of_lookup_eq_some _ _ _ hl, hp⟩

/-- Store with a zero-height region present, for the C5 counterexample. -/
def zFlushState : RedisState := ⟨[("TH", 0)], [("TH", 999)], none, "0"⟩

/-- Empty database. -/
def exEmptyDB : Database := ⟨[], []⟩

/-- C5 counterexample: region TH has a present store entry with height 0,
yet the raw-flush tick appends no row at all, because getAllCountryHeights
filters out non-positive heights; the claimed row for a zero-height region
is never written. -/
theorem raw_flush_skips_zero_height :
    lookup zFlushState.heights "TH" = some 0 ∧
    persistenceTick zFlushState exEmptyDB 1000 = exEmptyDB := by decide

/-- C5 amended: on every raw-flush tick exactly one row is appended for
every region whose stored height is strictly positive (zero-height regions
are excluded by the snapshot read), and a tick that observes no
positive-height region is a no-op rather than an error. -/
theorem raw_flush_rows (s : RedisState) (db : Database) (now : ℤ)
    (hnd : (s.heights.map Prod.fst).Nodup) :
    (∀ code h, (RawRecord.mk code h now ∈ (persistenceTick s db now).raw ↔
      RawRecord.mk code h now ∈ db.raw ∨ (lookup s.heights code = some h ∧ 0 < h))) ∧
    ((getAllCountryHeights s).map Prod.fst).Nodup ∧
    ((∀ p ∈ s.heights, ¬ 0 < p.2) → persistenceTick s db now = db) := by
  refine ⟨?_, nodup_keys_getAllCountryHeights s hnd, ?_⟩
  · intro code h
    by_cases hlen : 0 < (getAllCountryHeights s).length
    · have hmap : (RawRecord.mk code h now ∈
          (getAllCountryHeights s).map (fun p => RawRecord.mk p.1 p.2 now)) ↔
          ((code, h) ∈ getAllCountryHeights s) := by
        rw [List.mem_map]
        constructor
        · rintro ⟨p, hp, hpe⟩
          have h1 : p.1 = code := congrArg RawRecord.countryCode hpe
          have h2 : p.2 = h := congrArg RawRecord.height hpe
          have hpc : p = (code, h) := Prod.ext h1 h2
          rwa [hpc] at hp
        · intro hm
          exact ⟨(code, h), hm, rfl⟩
      simp only [persistenceTick, if_pos hlen]
      rw [List.mem_append, hmap, mem_getAllCountryHeights_lookup s hnd]
    · have hL : getAllCountryHeights s = [] := List.length_eq_zero.mp (by omega)
      simp only [persistenceTick, if_neg hlen]
      constructor
      · exact Or.inl
      · rintro (hm | ⟨hl, hp⟩)
        · exact hm
        · exfalso
          have hmem := (mem_getAllCountryHeights_lookup s hnd code h).mpr ⟨hl, hp⟩
          rw [hL] at hmem
          simp at hmem
  · intro hall
    cases hL : getAllCountryHeights s with
    | nil => simp [persistenceTick, hL]
    | cons p L2 =>
        exfalso
        have hp : p ∈ getAllCountryHeights s := by
          rw [hL]; exact List.mem_cons_self _ _
        rcases (mem_getAllCountryHeights s p).mp hp with ⟨hm, hpos⟩
        exact hall p hm hpos

/-- Store with one positive and one zero region, for the C5 witness. -/
def exFlushState : RedisState := ⟨[("TH", 5), ("ZZ", 0)], [], none, "0"⟩

/-- Empty database for the C5 witness. -/
def exFlushDB : Database := ⟨[], []⟩

/-- Witness for the amended C5: exactly the positive region TH gets its row. -/
theorem raw_flush_rows_witness :
    (exFlushState.heights.map Prod.fst).Nodup ∧
    (RawRecord.mk "TH" 5 777 ∈ (persistenceTick exFlushState exFlushDB 777).raw ↔
      RawRecord.mk "TH" 5 777 ∈ exFlushDB.raw ∨
        (lookup exFlushState.heights "TH" = some 5 ∧ (0:ℤ) < 5)) ∧
    (persistenceTick exFlushState exFlushDB 777).raw = [RawRecord.mk "TH" 5 777] :=
  ⟨by decide, (raw_flush_rows exFlushState exFlushDB 777 (by decide)).1 "TH" 5, by decide⟩

/-! ## Compaction (C7) -/

theorem firstOccurrences_cons {α : Type} [DecidableEq α] (b : α) (l : List α) :
    firstOccurrences (b :: l)
      = b :: firstOccurrences (l.filter (fun x => decide (x ≠ b))) := by
  rw [firstOccurrences]

theorem mem_firstOccurrences {α : Type} [DecidableEq α] :
    ∀ (l : List α) (a : α), a ∈ firstOccurrences l ↔ a ∈ l
  | [], a => by simp [firstOccurrences]
  | b :: l, a => by
      rw [firstOccurrences_cons, List.mem_cons,
        mem_firstOccurrences (l.filter (fun x => decide (x ≠ b))) a,
        List.mem_filter, List.mem_cons]
      by_cases hab : a = b
      · simp [hab]
      · simp [hab]
termination_by l _ => l.length
decreasing_by
  simp only [List.length_cons]
  exact Nat.lt_succ_of_le (List.length_filter_le _ _)

theorem nodup_firstOccurrences {α : Type} [DecidableEq α] :
    ∀ (l : List α), (firstOccurrences l).Nodup
  | [] => by simp [firstOccurrences]
  | b :: l => by
      rw [firstOccurrences_cons, List.nodup_cons]
      refine ⟨?_, nodup_firstOccurrences _⟩
      rw [mem_firstOccurrences, List.mem_filter]
      simp
termination_by l => l.length
decreasing_by
  simp only [List.length_cons]
  exact Nat.lt_succ_of_le (List.length_filter_le _ _)

theorem mem_oldRawRecords (db : Database) (now : ℤ) (r : RawRecord) :
    r ∈ oldRawRecords db now ↔
      r ∈ db.raw ∧ r.recordedAt < now - RETENTION_RAW_DURATION_MS := by
  unfold oldRawRecords
  rw [(List.perm_insertionSort _ _).mem_iff, List.mem_filter]
  simp

/-- C7: one compaction run selects exactly the raw rows older than the
retention cutoff, partitions them into the (region, calendar day) groups,
creates one daily row per group carrying the rounded average, the minimum,
the maximum and the sample count of that group, and deletes the selected
raw rows only in the same committed transaction, so a run that does not
commit changes nothing. -/
theorem compaction_partitions_and_is_atomic (db : Database) (now : ℤ) :
    (∀ r, r ∈ oldRawRecords db now ↔
        r ∈ db.raw ∧ r.recordedAt < now - RETENTION_RAW_DURATION_MS) ∧
    (∀ r ∈ oldRawRecords db now,
        dailyGroupKey r ∈ firstOccurrences ((oldRawRecords db now).map dailyGroupKey) ∧
        r ∈ groupFor (oldRawRecords db now) (dailyGroupKey r) ∧
        (∀ k, r ∈ groupFor (oldRawRecords db now) k → k = dailyGroupKey r)) ∧
    (firstOccurrences ((oldRawRecords db now).map dailyGroupKey)).Nodup ∧
    (∀ k ∈ firstOccurrences ((oldRawRecords db now).map dailyGroupKey),
        groupFor (oldRawRecords db now) k ≠ [] ∧
        (summarize (oldRawRecords db now) k).countryCode = k.1 ∧
        (summarize (oldRawRecords db now) k).height
          = jsRound (average ((groupFor (oldRawRecords db now) k).map
              (fun r => (r.height : ℚ)))) ∧
        (summarize (oldRawRecords db now) k).minHeight
          = jsRound (listMin ((groupFor (oldRawRecords db now) k).map
              (fun r => (r.height : ℚ)))) ∧
        (summarize (oldRawRecords db now) k).maxHeight
          = jsRound (listMax ((groupFor (oldRawRecords db now) k).map
              (fun r => (r.height : ℚ)))) ∧
        (summarize (oldRawRecords db now) k).sampleCount
          = (groupFor (oldRawRecords db now) k).length) ∧
    (newDailyRecords db now
      = (firstOccurrences ((oldRawRecords db now).map dailyGroupKey)).map
          (summarize (oldRawRecords db now))) ∧
    (aggregateRawToDaily db now false = db) ∧
    ((aggregateRawToDaily db now true).daily = db.daily ++ newDailyRecords db now) ∧
    ((aggregateRawToDaily db now true).raw
      = db.raw.filter (fun r => decide (¬ r.recordedAt < now - RETENTION_RAW_DURATION_MS))) := by
  refine ⟨mem_oldRawRecords db now, ?_, nodup_firstOccurrences _, ?_, rfl, ?_, ?_, ?_⟩
  · intro r hr
    refine ⟨?_, ?_, ?_⟩
    · exact (mem_firstOccurrences _ _).mpr (List.mem_map_of_mem dailyGroupKey hr)
    · rw [groupFor, List.mem_filter]
      simp [hr]
    · intro k hk
      rw [groupFor, List.mem_filter] at hk
      have := hk.2
      simp at this
      exact this.symm
  · intro k hk
    have hmem := (mem_firstOccurrences _ _).mp hk
    rcases List.mem_map.mp hmem with ⟨r, hr, hre⟩
    refine ⟨?_, rfl, rfl, rfl, rfl, rfl⟩
    intro hnil
    have : r ∈ groupFor (oldRawRecords db now) k := by
      rw [groupFor, List.mem_filter]
      simp [hr, hre]
    rw [hnil] at this
    simp at this
  · simp only [aggregateRawToDaily]
    split <;> rfl
  · by_cases hemp : (oldRawRecords db now).isEmpty
    · have hL : oldRawRecords db now = [] := List.isEmpty_iff.mp hemp
      simp [aggregateRawToDaily, hemp, newDailyRecords, hL, firstOccurrences]
    · simp [aggregateRawToDaily, hemp]
  · by_cases hemp : (oldRawRecords db now).isEmpty
    · have hL : oldRawRecords db now = [] := List.isEmpty_iff.mp hemp
      have hfil : db.raw.filter
          (fun r => decide (r.recordedAt < now - RETENTION_RAW_DURATION_MS)) = [] := by
        have hperm := (List.perm_insertionSort
          (fun a b : RawRecord => a.recordedAt ≤ b.recordedAt)
          (db.raw.filter (fun r => decide (r.recordedAt < now - RETENTION_RAW_DURATION_MS))))
        rw [show List.insertionSort (fun a b : RawRecord => a.recordedAt ≤ b.recordedAt)
            (db.raw.filter (fun r => decide (r.recordedAt < now - RETENTION_RAW_DURATION_MS)))
            = oldRawRecords db now from rfl, hL] at hperm
        exact hperm.symm.eq_nil
      have hall : ∀ r ∈ db.raw, ¬ r.recordedAt < now - RETENTION_RAW_DURATION_MS := by
        intro r hr hlt
        have : r ∈ db.raw.filter
            (fun r => decide (r.recordedAt < now - RETENTION_RAW_DURATION_MS)) := by
          rw [List.mem_filter]
          simp [hr, hlt]
        rw [hfil] at this
        simp at this
      simp only [aggregateRawToDaily, hemp, if_pos]
      rw [List.filter_eq_self.mpr]
      intro r hr
      simpa using hall r hr
    · simp [aggregateRawToDaily, hemp]

end GlobalScroll
